import Mathlib

/-!
Verification of the CheapestSpectrumSensingProject specification against the
repository's code.

The sensor-side modules (`psd_consumer.py`, `utils/welch_util.py`,
`demod_consumer.py`, `realtime_runner.py`) are not present under `src/`; only
their unit tests are.  Their data model and operations are therefore modelled
from the specification (and kept consistent with the behaviour pinned by the
repository's own tests).  The backend (`src/backend/src/main.py`) and the
example front server (`src/Example_server_front/Fast_api_server.py`) are
present and are embedded directly from the source.
-/

/-- An IQ sample: a complex number, embedded as a pair (real, imaginary).
The double-precision floats of the code are modelled as rationals. -/
abbrev IQ : Type := ℚ × ℚ

/-- Modelled from the spec: `RingBuffer` of `psd_consumer.py` (module absent
from src/) — "capacity C (samples); owns an array of C complex slots, a write
cursor, a count of valid samples (saturating at C)". -/
structure RingBuffer where
  capacity : Nat
  slots : List IQ
  writePos : Nat
  count : Nat

/-- Modelled from the spec: a freshly constructed `RingBuffer(capacity)` with
all-zero slots, cursor at 0 and no valid samples. -/
def RingBuffer.mkEmpty (c : Nat) : RingBuffer :=
  ⟨c, List.replicate c (0, 0), 0, 0⟩

/-- Modelled from the spec: writing a single sample — store at the write
cursor, advance the cursor modulo capacity, increment the valid-count
saturating at capacity. -/
def RingBuffer.write1 (rb : RingBuffer) (x : IQ) : RingBuffer :=
  { rb with
    slots := rb.slots.set rb.writePos x
    writePos := (rb.writePos + 1) % rb.capacity
    count := min (rb.count + 1) rb.capacity }

/-- Modelled from the spec: `RingBuffer.write(samples)` appends an
arbitrary-length batch, overwriting the oldest data once capacity is
exceeded. -/
def RingBuffer.write (rb : RingBuffer) (xs : List IQ) : RingBuffer :=
  xs.foldl RingBuffer.write1 rb

/-- Modelled from the spec: `RingBuffer.read_latest(n)` returns the n most
recent samples in chronological order, or `none` ("insufficient data") if
fewer than n valid samples are held. -/
def RingBuffer.read_latest (rb : RingBuffer) (n : Nat) : Option (List IQ) :=
  if rb.count < n then none
  else some ((List.range n).map (fun i =>
    rb.slots.getD ((rb.writePos + (rb.capacity - n) + i) % rb.capacity) (0, 0)))

/-- Invariant relating a ring buffer to the full history `h` of samples ever
written into it: cursor is the history length modulo capacity, valid-count is
the saturated history length, and each of the last `C` history entries sits at
the slot indexed by its history position modulo capacity. -/
def RingBuffer.Buffered (C : Nat) (h : List IQ) (rb : RingBuffer) : Prop :=
  rb.capacity = C ∧ rb.slots.length = C ∧ rb.writePos = h.length % C ∧
  rb.count = min h.length C ∧
  ∀ k, k < h.length → h.length - k ≤ C → rb.slots.getD (k % C) (0, 0) = h.getD k (0, 0)

/-- Fuel-driven computation of the least power of two that is ≥ `n`
(with value 1 for `n ≤ 1`); the fuel argument only drives termination. -/
def nextPow2Aux : Nat → Nat → Nat
  | 0, _ => 1
  | fuel + 1, n => if n ≤ 1 then 1 else 2 * nextPow2Aux fuel ((n + 1) / 2)

/-- Modelled from the spec: `WelchEstimator._next_power_of_2` of
`utils/welch_util.py` (module absent from src/) — the smallest power of two
that is ≥ the argument (1 for arguments ≤ 1). -/
def nextPow2 (n : Nat) : Nat := nextPow2Aux n n

/-- Modelled from the spec: the Welch segment length — "`nperseg` = next power
of two ≥ fs/rbw". -/
def nperseg (fs rbw : ℚ) : Nat := nextPow2 ⌈fs / rbw⌉₊

/-- Modelled from the spec: the inputs of `WelchEstimator` of
`utils/welch_util.py` (module absent from src/): center frequency, sample
rate, desired resolution bandwidth, antenna impedance, shift flag. -/
structure WelchEstimator where
  freq : ℚ
  fs : ℚ
  desired_rbw : ℚ
  r_ant : ℚ := 50
  with_shift : Bool := true

/-- The segment length selected by the estimator. -/
def WelchEstimator.desired_nperseg (est : WelchEstimator) : Nat :=
  nperseg est.fs est.desired_rbw

/-- A power value produced by the scale transform, kept symbolic so that
IEEE finiteness is expressible: `logv c a o` stands for `c·log10(a) + o`
(finite exactly when the log argument is positive) and `lin v` for the plain
rational value `v` (always finite). -/
inductive PVal where
  | logv (coeff : ℚ) (arg : ℚ) (offset : ℚ)
  | lin (v : ℚ)
deriving DecidableEq

/-- Whether a symbolic power value denotes a finite IEEE number: a logarithm
is finite exactly when its argument is positive. -/
def PVal.finite : PVal → Bool
  | .logv _ a _ => decide (0 < a)
  | .lin _ => true

/-- The four output scales recognized by `execute_welch` (strings as in the
repository's tests). -/
def recognizedScales : List String := ["dB", "dBm", "dBFS", "V2/Hz"]

/-- Modelled from the spec: the frequency axis paired with the power array —
centered at `freq - fs/2 … freq + fs/2` when shifted, `0 … fs` otherwise,
with one bin per power entry. -/
def WelchEstimator.freqAxis (est : WelchEstimator) (n : Nat) : List ℚ :=
  (List.range n).map (fun (i : Nat) =>
    if est.with_shift then est.freq - est.fs / 2 + est.fs * (i : ℚ) / (n : ℚ)
    else est.fs * (i : ℚ) / (n : ℚ))

/-- Modelled from the spec: the scale-transform and error-dispatch layer of
`WelchEstimator.execute_welch` of `utils/welch_util.py` (module absent from
src/).  The underlying floating-point Welch periodogram (windowed FFT
averaging) is not representable in this embedding; its real-valued output
power array is abstracted as the `rawPxx` argument, nonnegative per the spec.
Scale transforms follow the spec: dB = 10·log10(p); dBm = 10·log10(p/R) + 30;
dBFS = 10·log10(p normalized to full scale); V²/Hz = p divided by the bin
bandwidth, no log.  An unrecognized scale fails, with no fallback. -/
def WelchEstimator.execute_welch (est : WelchEstimator) (rawPxx : List ℚ)
    (scale : String) : Except String (List ℚ × List PVal) :=
  if scale = "dB" then
    .ok (est.freqAxis rawPxx.length, rawPxx.map (fun p => .logv 10 p 0))
  else if scale = "dBm" then
    .ok (est.freqAxis rawPxx.length, rawPxx.map (fun p => .logv 10 (p / est.r_ant) 30))
  else if scale = "dBFS" then
    .ok (est.freqAxis rawPxx.length, rawPxx.map (fun p => .logv 10 (p / 1) 0))
  else if scale = "V2/Hz" then
    .ok (est.freqAxis rawPxx.length,
      rawPxx.map (fun p => .lin (p / (est.fs / est.desired_nperseg))))
  else .error "Unsupported scale"

/-- Modelled from the spec: the inputs of `Demodulator` of
`demod_consumer.py` (module absent from src/): sample rate, target bandwidth,
signal type, optional explicit target output rate. -/
structure Demodulator where
  input_rate : ℚ
  bandwidth : ℚ
  sigType : String
  decimate_to : Option ℚ := none

/-- Modelled from the spec: decimation factor from the target bandwidth —
`floor(input_rate / target_bandwidth)`. -/
def Demodulator.calcDecimationFromBw (d : Demodulator) : Nat :=
  ⌊d.input_rate / d.bandwidth⌋₊

/-- Modelled from the spec: decimation factor towards an explicit target
output rate — `floor(input_rate / target_rate)`. -/
def Demodulator.calcDecimationToTarget (d : Demodulator) (target : ℚ) : Nat :=
  ⌊d.input_rate / target⌋₊

/-- Modelled from the spec: the selected decimation factor — the explicit
target rate when given, the target bandwidth otherwise. -/
def Demodulator.decimation (d : Demodulator) : Nat :=
  match d.decimate_to with
  | some t => d.calcDecimationToTarget t
  | none => d.calcDecimationFromBw

/-- Modelled from the spec: "FIR anti-alias cutoff (normalized, cycles/sample)
= 0.5 / decimation_factor". -/
def Demodulator.firCutoffForDecimation (_ : Demodulator) (factor : Nat) : ℚ :=
  (1 / 2) / factor

/-- A DSP pipeline stage (stage kind plus numeric parameters), the
declarative description handed to the external DSP toolchain.  Stage names
follow the repository's tests (`fmdemod_quadri_cf`, `amdemod_cf`,
`dcblock_ff`, `fir_decimate_cc`, `play`). -/
inductive Stage where
  | fmdemodQuadriCf
  | amdemodCf
  | dcblockFf
  | firDecimateCc (factor : Nat) (cutoff : ℚ)
  | play
deriving DecidableEq

/-- Modelled from the spec: `Demodulator.build_pipeline` of
`demod_consumer.py` (module absent from src/) — FM → [quadrature FM
demodulation, decimation, audio sink]; AM → [AM envelope detection,
DC removal, decimation, audio sink]; any other signal type fails with an
invalid-argument error and no default pipeline. -/
def Demodulator.build_pipeline (d : Demodulator) : Except String (List Stage) :=
  if d.sigType = "FM" then
    .ok [.fmdemodQuadriCf,
         .firDecimateCc d.decimation (d.firCutoffForDecimation d.decimation),
         .play]
  else if d.sigType = "AM" then
    .ok [.amdemodCf, .dcblockFf,
         .firDecimateCc d.decimation (d.firCutoffForDecimation d.decimation),
         .play]
  else .error "Unknown demodulation type"

/-- Modelled from the spec: the byte-to-complex conversion at the head of the
PSD consumer process (`psd_consumer.main`, module absent from src/):
consecutive raw bytes are paired as (I, Q) and become the real and imaginary
parts of a double-precision complex sample.  The scaling follows the
repository's own test `test_main_reads_and_converts_stdin`, which asserts
`arr[0] == 1+2j` for input bytes (1, 2) — i.e. the byte values are taken
directly, with no full-scale division. -/
def bytesToComplex : List Int → List IQ
  | [] => []
  | [_] => []
  | i :: q :: rest => ((i : ℚ), (q : ℚ)) :: bytesToComplex rest

/-- The byte-to-complex conversion exactly as the spec words it, for
comparison: each signed 8-bit value is divided by the format's full-scale
value 128 before pairing as (I, Q). -/
def bytesToComplexSpec : List Int → List IQ
  | [] => []
  | [_] => []
  | i :: q :: rest => ((i : ℚ) / 128, (q : ℚ) / 128) :: bytesToComplexSpec rest

/-- Modelled from the spec: the PSD consumer's ingestion step
(`psd_consumer.main`, module absent from src/) — each raw chunk read from the
pipe is converted to complex samples and written to the ring buffer. -/
def ingestChunk (rb : RingBuffer) (bs : List Int) : RingBuffer :=
  rb.write (bytesToComplex bs)

/-- A chunk of raw bytes moved by the tee loop. -/
abbrev Chunk : Type := List Int

/-- Modelled from the spec: the chunk-forwarding loop of `tee_stream` of
`realtime_runner.py` (module absent from src/).  `mode i` is the value of the
externally-persisted mode flag as read at iteration `i`; `chunks` is the
acquisition stream already split into fixed-size chunks, ending at
end-of-stream.  Each iteration first polls the flag — anything other than
`"realtime"` terminates the loop — then forwards the next chunk. -/
def teeStreamGo (mode : Nat → String) : Nat → List Chunk → List Chunk
  | _, [] => []
  | i, c :: rest =>
    if mode i = "realtime" then c :: teeStreamGo mode (i + 1) rest else []

/-- Modelled from the spec: the sequence of chunks forwarded by
`tee_stream` over the whole run. -/
def teeStream (mode : Nat → String) (chunks : List Chunk) : List Chunk :=
  teeStreamGo mode 0 chunks

/-- Modelled from the spec: every forwarded chunk is written to every named
pipe, in the order read — the content appended to each pipe is the forwarded
sequence itself. -/
def teeToPipes (mode : Nat → String) (chunks : List Chunk)
    (pipes : List (List Chunk)) : List (List Chunk) :=
  pipes.map (fun p => p ++ teeStream mode chunks)

/-- A JSON value, the payload type of the backend API
(`src/backend/src/main.py`). -/
inductive Json where
  | null
  | bool (b : Bool)
  | num (q : ℚ)
  | str (s : String)
  | arr (elems : List Json)
  | obj (fields : List (String × Json))

/-- Association-list lookup by string key. -/
def assocLookup {α : Type} : List (String × α) → String → Option α
  | [], _ => none
  | (k, v) :: rest, key => if k = key then some v else assocLookup rest key

/-- Field lookup on a JSON object (`none` on non-objects). -/
def Json.lookup : Json → String → Option Json
  | .obj fields, key => assocLookup fields key
  | _, _ => none

/-- `VALID_MACS` of `src/backend/src/main.py` (the dev fallback set — the
`src/macs.json` data file is not in the repository). -/
def validMacs : List String :=
  ["d0:65:78:9c:dd:d0", "d0:65:78:9c:dd:d1", "d0:65:78:9c:dd:d2"]

/-- `get_default_config` of `src/backend/src/main.py`. -/
def get_default_config : Json :=
  .obj [("center_freq_hz", .num 9800000),
        ("resolution_hz", .num 10000),
        ("sample_rate_hz", .num 20000000),
        ("span", .num 20000000),
        ("scale", .str "dbm"),
        ("window", .str "hamming"),
        ("overlap", .num (1 / 2)),
        ("lna_gain", .num 0),
        ("vga_gain", .num 0),
        ("antenna_amp", .bool false),
        ("demodulation", .obj [("bw_hz", .num 250000),
                               ("center_freq_hz", .num 9800000),
                               ("port_socket", .str "/1234")])]

/-- One device's entry of `device_state` in `src/backend/src/main.py`:
config (JSON or null), metrics, data. -/
structure Store where
  config : Json
  metrics : Json
  data : Json

/-- The store a device receives on first touch (`get_device_store`). -/
def freshStore : Store :=
  ⟨get_default_config, .obj [], .obj []⟩

/-- The backend's in-memory `device_state`, as an association list from MAC
to store (most recent binding first). -/
abbrev ServerState : Type := List (String × Store)

/-- `get_device_store` of `src/backend/src/main.py`: reject MACs outside the
whitelist with 403; initialize a default store for valid MACs seen for the
first time; return the device's store together with the (possibly extended)
state. -/
def get_device_store (mac : String) (st : ServerState) :
    Except Nat (Store × ServerState) :=
  if mac ∈ validMacs then
    match assocLookup st mac with
    | some s => .ok (s, st)
    | none => .ok (freshStore, (mac, freshStore) :: st)
  else .error 403

/-- `get_sensor_job` of `src/backend/src/main.py` (GET /api/v1/{mac}/realtime):
returns the device's current config (or null if stopped). -/
def get_sensor_job (mac : String) (st : ServerState) :
    Except Nat (Json × ServerState) :=
  (get_device_store mac st).map (fun p => (p.1.config, p.2))

/-- `update_frontend_params` of `src/backend/src/main.py`
(POST /api/v1/front/params): payload `{mac, params}`; 400 when `mac` is
missing or null; otherwise stores `params` (null when absent) as the device's
config. -/
def update_frontend_params (payload : Json) (st : ServerState) :
    Except Nat ServerState :=
  match payload.lookup "mac" with
  | some (.str m) =>
    (get_device_store m st).map (fun p =>
      (m, { p.1 with config := (payload.lookup "params").getD .null }) :: p.2)
  | some .null => .error 400
  | none => .error 400
  | some _ => .error 403

/-- `post_sensor_metrics` of `src/backend/src/main.py`. -/
def post_sensor_metrics (mac : String) (body : Json) (st : ServerState) :
    Except Nat ServerState :=
  (get_device_store mac st).map (fun p =>
    (mac, { p.1 with metrics := body }) :: p.2)

/-- `post_sensor_data` of `src/backend/src/main.py`. -/
def post_sensor_data (mac : String) (body : Json) (st : ServerState) :
    Except Nat ServerState :=
  if mac ∈ validMacs then
    (get_device_store mac st).map (fun p =>
      (mac, { p.1 with data := body }) :: p.2)
  else .error 403

/-- A state-touching backend API operation. -/
inductive Op where
  | frontMetrics (mac : String)
  | frontData (mac : String)
  | frontParams (payload : Json)
  | sensorJob (mac : String)
  | sensorMetrics (mac : String) (body : Json)
  | sensorData (mac : String) (body : Json)

/-- Apply one API operation to the backend state (an erroring request leaves
the state unchanged: every handler raises before mutating). -/
def applyOp (st : ServerState) (op : Op) : ServerState :=
  match op with
  | .frontMetrics mac | .frontData mac | .sensorJob mac =>
    match get_device_store mac st with
    | .ok p => p.2
    | .error _ => st
  | .frontParams payload =>
    match update_frontend_params payload st with
    | .ok st2 => st2
    | .error _ => st
  | .sensorMetrics mac body =>
    match post_sensor_metrics mac body st with
    | .ok st2 => st2
    | .error _ => st
  | .sensorData mac body =>
    match post_sensor_data mac body st with
    | .ok st2 => st2
    | .error _ => st

/-- Run a trace of API operations from the empty initial state. -/
def runOps (ops : List Op) : ServerState := ops.foldl applyOp []

/-- The operation that stores a null config for `mac`: a frontend
POST /api/v1/front/params whose payload names `mac` and whose `params` field
is null or absent. -/
def OpSetsNull (mac : String) (op : Op) : Prop :=
  ∃ payload, op = .frontParams payload ∧
    payload.lookup "mac" = some (.str mac) ∧
    (payload.lookup "params").getD .null = .null

/-- Every store the backend state holds for `mac` has a non-null config. -/
def ConfigNotNull (mac : String) (st : ServerState) : Prop :=
  ∀ s, assocLookup st mac = some s → s.config ≠ Json.null

/-- `MeasurementResult` of `src/Example_server_front/Fast_api_server.py`. -/
structure MeasurementResult where
  Pxx : List ℚ
  start_freq_hz : ℚ
  end_freq_hz : ℚ
  timestamp : Int
  mac : String

/-- `np.linspace` over the rationals: `n` evenly spaced points from `a`
to `b` inclusive. -/
def linspace (a b : ℚ) (n : Nat) : List ℚ :=
  (List.range n).map (fun i => a + (b - a) * i / (n - 1))

/-- `psd_plot_png` of `src/Example_server_front/Fast_api_server.py`: 404 when
no PSD frame has been received yet; 400 when the stored power array is empty
or the frequency span is non-positive; otherwise renders the PNG — modelled
as the plotted (frequency, power) points handed to matplotlib. -/
def psd_plot_png (last_result : Option MeasurementResult) :
    Except Nat (List (ℚ × ℚ)) :=
  match last_result with
  | none => .error 404
  | some m =>
    if m.Pxx.length = 0 ∨ m.end_freq_hz ≤ m.start_freq_hz then .error 400
    else .ok ((linspace m.start_freq_hz m.end_freq_hz m.Pxx.length).zip m.Pxx)

/-- A freshly constructed ring buffer satisfies the buffering invariant for
the empty history. -/
theorem buffered_mkEmpty (C : Nat) :
    RingBuffer.Buffered C [] (RingBuffer.mkEmpty C) := by
  refine ⟨rfl, by simp [RingBuffer.mkEmpty], by simp [RingBuffer.mkEmpty],
    by simp [RingBuffer.mkEmpty], ?_⟩
  intro k hk
  simp at hk

/-- Writing one sample preserves the buffering invariant, extending the
history by that sample. -/
theorem buffered_write1 {C : Nat} {h : List IQ} {rb : RingBuffer} (hC : 0 < C)
    (hb : RingBuffer.Buffered C h rb) (x : IQ) :
    RingBuffer.Buffered C (h ++ [x]) (rb.write1 x) := by
  obtain ⟨hcap, hlen, hpos, hcnt, hslot⟩ := hb
  refine ⟨hcap, ?_, ?_, ?_, ?_⟩
  · simpa [RingBuffer.write1] using hlen
  · simp only [RingBuffer.write1, List.length_append, List.length_singleton]
    rw [hpos, hcap, Nat.mod_add_mod]
  · simp only [RingBuffer.write1, List.length_append, List.length_singleton]
    rw [hcnt, hcap]
    omega
  · intro k hk hck
    simp only [List.length_append, List.length_singleton] at hk hck
    simp only [RingBuffer.write1]
    by_cases hkL : k = h.length
    · subst hkL
      have hwlt : rb.writePos < rb.slots.length := by
        rw [hpos, hlen]
        exact Nat.mod_lt _ hC
      rw [List.getD_append_right h [x] _ _ le_rfl]
      have hidx : h.length % C = rb.writePos := by rw [hpos]
      rw [Nat.sub_self, hidx, List.getD_eq_getElem?_getD,
        List.getElem?_set_self hwlt]
      rfl
    · have hklt : k < h.length := by omega
      have hne : k % C ≠ rb.writePos := by
        rw [hpos]
        intro heq
        have hmod : Nat.ModEq C k h.length := heq
        have hdvd : C ∣ h.length - k := (Nat.modEq_iff_dvd' (le_of_lt hklt)).mp hmod
        have hpos2 : 0 < h.length - k := by omega
        have := Nat.le_of_dvd hpos2 hdvd
        omega
      rw [List.getD_append h [x] _ _ hklt,
        List.getD_eq_getElem?_getD, List.getElem?_set_ne (fun a => hne a.symm),
        ← List.getD_eq_getElem?_getD]
      exact hslot k hklt (by omega)

/-- Writing a batch preserves the buffering invariant, appending the batch to
the history. -/
theorem buffered_write {C : Nat} (hC : 0 < C) :
    ∀ (xs h : List IQ) (rb : RingBuffer), RingBuffer.Buffered C h rb →
      RingBuffer.Buffered C (h ++ xs) (rb.write xs)
  | [], h, rb, hb => by simpa [RingBuffer.write] using hb
  | x :: xs, h, rb, hb => by
    have h2 := buffered_write hC xs (h ++ [x]) (rb.write1 x) (buffered_write1 hC hb x)
    simpa [RingBuffer.write, List.append_assoc] using h2

/-- On a buffer satisfying the invariant, `read_latest n` returns the last
`n` history samples in order whenever `n` is within both capacity and
history. -/
theorem read_latest_of_buffered {C n : Nat} {h : List IQ} {rb : RingBuffer}
    (hC : 0 < C) (hb : RingBuffer.Buffered C h rb) (hn : n ≤ C)
    (hnh : n ≤ h.length) :
    rb.read_latest n = some (h.drop (h.length - n)) := by
  obtain ⟨hcap, hlen, hpos, hcnt, hslot⟩ := hb
  have hcount : ¬ rb.count < n := by rw [hcnt]; omega
  unfold RingBuffer.read_latest
  rw [if_neg hcount]
  congr 1
  apply List.ext_getElem
  · have hsub : h.length - (h.length - n) = n := by omega
    simp [hsub]
  · intro i h1 h2
    simp only [List.getElem_map, List.getElem_range]
    have hi : i < n := by simpa using h1
    rw [hpos, hcap]
    have hidx : (h.length % C + (C - n) + i) % C = (h.length - n + i) % C := by
      rw [Nat.add_assoc, Nat.mod_add_mod]
      have : h.length + (C - n + i) = (h.length - n + i) + C := by omega
      rw [this, Nat.add_mod_right]
    rw [hidx]
    have hk1 : h.length - n + i < h.length := by omega
    have hk2 : h.length - (h.length - n + i) ≤ C := by omega
    rw [hslot _ hk1 hk2, List.getElem_drop, List.getD_eq_getElem]

/-- Claim C1: for every RingBuffer of capacity C and every write sequence,
`read_latest n` with n ≤ C returns exactly the n most recently written
samples in chronological order once at least n samples have ever been
written, and returns `none` (insufficient data) when fewer than n samples
have been written. -/
theorem ringBuffer_read_latest_correct (C n : Nat) (xs : List IQ)
    (hC : 0 < C) (hn : n ≤ C) :
    ((RingBuffer.mkEmpty C).write xs).read_latest n =
      if n ≤ xs.length then some (xs.drop (xs.length - n)) else none := by
  have hb := buffered_write hC xs [] (RingBuffer.mkEmpty C) (buffered_mkEmpty C)
  rw [List.nil_append] at hb
  by_cases hx : n ≤ xs.length
  · rw [if_pos hx]
    exact read_latest_of_buffered hC hb hn hx
  · rw [if_neg hx]
    obtain ⟨-, -, -, hcnt, -⟩ := hb
    unfold RingBuffer.read_latest
    rw [if_pos]
    rw [hcnt]
    omega

/-- Witness for C1 at the spec's end-to-end scenario A: four samples into a
capacity-10 buffer; `read_latest 4` returns them in order and
`read_latest 5` reports insufficient data. -/
theorem ringBuffer_read_latest_correct_witness :
    ((RingBuffer.mkEmpty 10).write
        [((1 : ℚ), (1 : ℚ)), (2, 2), (3, 3), (4, 4)]).read_latest 4 =
      some [((1 : ℚ), (1 : ℚ)), (2, 2), (3, 3), (4, 4)] ∧
    ((RingBuffer.mkEmpty 10).write
        [((1 : ℚ), (1 : ℚ)), (2, 2), (3, 3), (4, 4)]).read_latest 5 = none := by
  constructor
  · have := ringBuffer_read_latest_correct 10 4 [(1, 1), (2, 2), (3, 3), (4, 4)]
      (by norm_num) (by norm_num)
    simpa using this
  · have := ringBuffer_read_latest_correct 10 5 [(1, 1), (2, 2), (3, 3), (4, 4)]
      (by norm_num) (by norm_num)
    simpa using this

/-- Claim C2: after writes totalling k samples (k may exceed C) the buffer
holds exactly min(k, C) valid samples — the most recent ones, retrievable in
order — the valid-count saturates at C, and the slot storage never grows. -/
theorem ringBuffer_count_saturates (C : Nat) (xs : List IQ) (hC : 0 < C) :
    ((RingBuffer.mkEmpty C).write xs).count = min xs.length C ∧
    ((RingBuffer.mkEmpty C).write xs).slots.length = C ∧
    ((RingBuffer.mkEmpty C).write xs).read_latest (min xs.length C) =
      some (xs.drop (xs.length - min xs.length C)) := by
  have hb := buffered_write hC xs [] (RingBuffer.mkEmpty C) (buffered_mkEmpty C)
  rw [List.nil_append] at hb
  obtain ⟨-, hlen, -, hcnt, -⟩ := hb
  refine ⟨hcnt, hlen, ?_⟩
  exact read_latest_of_buffered hC
    (by rw [← List.nil_append xs]
        exact buffered_write hC xs [] (RingBuffer.mkEmpty C) (buffered_mkEmpty C))
    (Nat.min_le_right _ _) (Nat.min_le_left _ _)

/-- Witness for C2 at the test scenario: a batch of 10 samples into a
capacity-10 buffer already holding 4 leaves count = 10 and `read_latest 10`
returns 10 samples. -/
theorem ringBuffer_count_saturates_witness :
    ((RingBuffer.mkEmpty 10).write
        ([((1 : ℚ), (1 : ℚ)), (2, 2), (3, 3), (4, 4)] ++
          List.replicate 10 ((5 : ℚ), (5 : ℚ)))).count = 10 ∧
    ((RingBuffer.mkEmpty 10).write
        ([((1 : ℚ), (1 : ℚ)), (2, 2), (3, 3), (4, 4)] ++
          List.replicate 10 ((5 : ℚ), (5 : ℚ)))).read_latest 10 =
      some (List.replicate 10 ((5 : ℚ), (5 : ℚ))) := by
  have h := ringBuffer_count_saturates 10
    ([(1, 1), (2, 2), (3, 3), (4, 4)] ++ List.replicate 10 ((5 : ℚ), (5 : ℚ)))
    (by norm_num)
  obtain ⟨h1, -, h3⟩ := h
  refine ⟨by simpa using h1, ?_⟩
  have := h3
  norm_num at this
  simpa using this

/-- `nextPow2Aux` returns a power of two whenever the fuel covers the
argument. -/
theorem nextPow2Aux_pow :
    ∀ (fuel n : Nat), n ≤ fuel → ∃ k, nextPow2Aux fuel n = 2 ^ k
  | 0, _, _ => ⟨0, rfl⟩
  | fuel + 1, n, h => by
    by_cases h1 : n ≤ 1
    · exact ⟨0, by simp [nextPow2Aux, h1]⟩
    · obtain ⟨k, hk⟩ := nextPow2Aux_pow fuel ((n + 1) / 2) (by omega)
      refine ⟨k + 1, ?_⟩
      simp only [nextPow2Aux, h1, if_false, hk]
      ring

/-- `nextPow2Aux` dominates its argument whenever the fuel covers it. -/
theorem le_nextPow2Aux :
    ∀ (fuel n : Nat), n ≤ fuel → n ≤ nextPow2Aux fuel n
  | 0, n, h => by
    simp only [nextPow2Aux]
    omega
  | fuel + 1, n, h => by
    by_cases h1 : n ≤ 1
    · simp [nextPow2Aux, h1]
    · have ih := le_nextPow2Aux fuel ((n + 1) / 2) (by omega)
      simp only [nextPow2Aux, h1, if_false]
      omega

/-- Claim C3: for every positive sample rate and resolution bandwidth, the
Welch segment length is a power of two and is at least fs/rbw. -/
theorem nperseg_pow2_and_ge (fs rbw : ℚ) (hfs : 0 < fs) (hrbw : 0 < rbw) :
    (∃ k, nperseg fs rbw = 2 ^ k) ∧ fs / rbw ≤ (nperseg fs rbw : ℚ) := by
  constructor
  · exact nextPow2Aux_pow _ _ le_rfl
  · have h1 : fs / rbw ≤ (⌈fs / rbw⌉₊ : ℚ) := Nat.le_ceil _
    have h2 : (⌈fs / rbw⌉₊ : Nat) ≤ nextPow2 ⌈fs / rbw⌉₊ := le_nextPow2Aux _ _ le_rfl
    calc fs / rbw ≤ (⌈fs / rbw⌉₊ : ℚ) := h1
      _ ≤ (nperseg fs rbw : ℚ) := by exact_mod_cast h2

/-- Witness for C3 at the spec's end-to-end scenario B:
fs = 1 MHz and rbw = 1 kHz give nperseg = 1024, a power of two ≥ fs/rbw. -/
theorem nperseg_pow2_and_ge_witness :
    (0 : ℚ) < 1000000 ∧ (0 : ℚ) < 1000 ∧ nperseg 1000000 1000 = 1024 ∧
    (1000000 : ℚ) / 1000 ≤ (nperseg 1000000 1000 : ℚ) := by
  have h := nperseg_pow2_and_ge 1000000 1000 (by norm_num) (by norm_num)
  refine ⟨by norm_num, by norm_num, ?_, h.2⟩
  have hq : (1000000 : ℚ) / 1000 = (1000 : ℕ) := by norm_num
  rw [nperseg, hq, Nat.ceil_natCast]
  decide

/-- Claim C4: the decimation factor is floor(input_rate / target_rate) when
an explicit target rate is given and floor(input_rate / target_bandwidth)
otherwise, and the FIR anti-alias cutoff is 0.5 / decimation_factor; in
particular rate 2 MHz with bandwidth 200 kHz yields factor 10 and cutoff
0.05, and an explicit target rate of 500 kHz yields factor 4. -/
theorem demodulator_decimation_cutoff (rate bw t : ℚ) (ty : String) :
    (Demodulator.mk rate bw ty none).decimation = ⌊rate / bw⌋₊ ∧
    (Demodulator.mk rate bw ty (some t)).decimation = ⌊rate / t⌋₊ ∧
    (∀ f : Nat,
      (Demodulator.mk rate bw ty none).firCutoffForDecimation f = 1 / 2 / (f : ℚ)) ∧
    (Demodulator.mk 2000000 200000 "FM" none).decimation = 10 ∧
    (Demodulator.mk 2000000 200000 "FM" none).firCutoffForDecimation 10 = 1 / 20 ∧
    (Demodulator.mk 2000000 200000 "AM" (some 500000)).decimation = 4 := by
  refine ⟨rfl, rfl, fun f => rfl, ?_, ?_, ?_⟩
  · show ⌊(2000000 : ℚ) / 200000⌋₊ = 10
    norm_num
  · show (1 : ℚ) / 2 / (10 : ℕ) = 1 / 20
    norm_num
  · show ⌊(2000000 : ℚ) / 500000⌋₊ = 4
    norm_num

/-- Claim C5: `build_pipeline` for FM always contains a quadrature-FM stage
and a decimation stage; for AM an envelope-detection and a DC-removal stage;
both end in the audio-sink stage; any other signal type yields an
invalid-argument error and no pipeline. -/
theorem build_pipeline_stages (d : Demodulator) :
    (d.sigType = "FM" →
      ∃ st, d.build_pipeline = .ok st ∧ Stage.fmdemodQuadriCf ∈ st ∧
        (∃ f c, Stage.firDecimateCc f c ∈ st) ∧ st.getLast? = some Stage.play) ∧
    (d.sigType = "AM" →
      ∃ st, d.build_pipeline = .ok st ∧ Stage.amdemodCf ∈ st ∧
        Stage.dcblockFf ∈ st ∧ (∃ f c, Stage.firDecimateCc f c ∈ st) ∧
        st.getLast? = some Stage.play) ∧
    (d.sigType ≠ "FM" → d.sigType ≠ "AM" →
      ∃ e, d.build_pipeline = .error e) := by
  refine ⟨?_, ?_, ?_⟩
  · intro h
    refine ⟨[Stage.fmdemodQuadriCf,
      Stage.firDecimateCc d.decimation (d.firCutoffForDecimation d.decimation),
      Stage.play], ?_, ?_, ?_, ?_⟩
    · simp [Demodulator.build_pipeline, h]
    · simp
    · exact ⟨d.decimation, d.firCutoffForDecimation d.decimation, by simp⟩
    · rfl
  · intro h
    have hne : d.sigType ≠ "FM" := by rw [h]; decide
    refine ⟨[Stage.amdemodCf, Stage.dcblockFf,
      Stage.firDecimateCc d.decimation (d.firCutoffForDecimation d.decimation),
      Stage.play], ?_, ?_, ?_, ?_, ?_⟩
    · simp [Demodulator.build_pipeline, h, hne]
    · simp
    · simp
    · exact ⟨d.decimation, d.firCutoffForDecimation d.decimation, by simp⟩
    · rfl
  · intro h1 h2
    exact ⟨"Unknown demodulation type",
      by simp [Demodulator.build_pipeline, h1, h2]⟩

/-- Witness for C5: the FM pipeline of the test's demodulator contains the
required stages, and signal type "XYZ" is rejected. -/
theorem build_pipeline_stages_witness :
    (∃ st, (Demodulator.mk 2000000 200000 "FM" none).build_pipeline = .ok st ∧
      Stage.fmdemodQuadriCf ∈ st ∧ (∃ f c, Stage.firDecimateCc f c ∈ st) ∧
      st.getLast? = some Stage.play) ∧
    (∃ e, (Demodulator.mk 2000000 200000 "XYZ" none).build_pipeline = .error e) :=
  ⟨(build_pipeline_stages (Demodulator.mk 2000000 200000 "FM" none)).1 rfl,
   (build_pipeline_stages (Demodulator.mk 2000000 200000 "XYZ" none)).2.2
     (by decide) (by decide)⟩

/-- The frequency axis has exactly the requested number of bins. -/
theorem freqAxis_length (est : WelchEstimator) (n : Nat) :
    (est.freqAxis n).length = n := by
  unfold WelchEstimator.freqAxis
  rw [List.length_map, List.length_range]

/-- Claim C6: `execute_welch` fails with an invalid-argument error on every
unrecognized scale with no fallback; on each recognized scale it succeeds,
the frequency-axis length equals the power-array length, and — given a
non-degenerate (all-positive) periodogram and positive antenna impedance —
every output power value is finite. -/
theorem execute_welch_scales (est : WelchEstimator) (rawPxx : List ℚ)
    (scale : String) :
    (scale ∉ recognizedScales →
      est.execute_welch rawPxx scale = .error "Unsupported scale") ∧
    (scale ∈ recognizedScales →
      ∃ f P, est.execute_welch rawPxx scale = .ok (f, P) ∧
        f.length = P.length ∧
        ((∀ p ∈ rawPxx, 0 < p) → 0 < est.r_ant →
          ∀ v ∈ P, v.finite = true)) := by
  constructor
  · intro hns
    simp only [recognizedScales, List.mem_cons, List.not_mem_nil, or_false,
      not_or] at hns
    obtain ⟨h1, h2, h3, h4⟩ := hns
    simp [WelchEstimator.execute_welch, h1, h2, h3, h4]
  · intro hs
    simp only [recognizedScales, List.mem_cons, List.not_mem_nil, or_false] at hs
    rcases hs with h | h | h | h <;> subst h
    · refine ⟨est.freqAxis rawPxx.length, rawPxx.map (fun p => PVal.logv 10 p 0),
        by simp [WelchEstimator.execute_welch], ?_, ?_⟩
      · rw [freqAxis_length, List.length_map]
      · intro hp _ v hv
        simp only [List.mem_map] at hv
        obtain ⟨p, hpm, rfl⟩ := hv
        simpa [PVal.finite] using hp p hpm
    · refine ⟨est.freqAxis rawPxx.length,
        rawPxx.map (fun p => PVal.logv 10 (p / est.r_ant) 30),
        by simp [WelchEstimator.execute_welch], ?_, ?_⟩
      · rw [freqAxis_length, List.length_map]
      · intro hp hr v hv
        simp only [List.mem_map] at hv
        obtain ⟨p, hpm, rfl⟩ := hv
        simpa [PVal.finite] using div_pos (hp p hpm) hr
    · refine ⟨est.freqAxis rawPxx.length,
        rawPxx.map (fun p => PVal.logv 10 (p / 1) 0),
        by simp [WelchEstimator.execute_welch], ?_, ?_⟩
      · rw [freqAxis_length, List.length_map]
      · intro hp _ v hv
        simp only [List.mem_map] at hv
        obtain ⟨p, hpm, rfl⟩ := hv
        simpa [PVal.finite] using hp p hpm
    · refine ⟨est.freqAxis rawPxx.length,
        rawPxx.map (fun p => PVal.lin (p / (est.fs / est.desired_nperseg))),
        by simp [WelchEstimator.execute_welch], ?_, ?_⟩
      · rw [freqAxis_length, List.length_map]
      · intro _ _ v hv
        simp only [List.mem_map] at hv
        obtain ⟨p, hpm, rfl⟩ := hv
        simp [PVal.finite]

/-- Witness for C6: a concrete estimator on the positive periodogram
[1, 2, 4] with scale "dB" — the claim's success branch at a concrete input. -/
theorem execute_welch_scales_witness :
    "dB" ∈ recognizedScales ∧
    ∃ f P, (WelchEstimator.mk 0 1000 10 50 true).execute_welch [1, 2, 4] "dB" =
        .ok (f, P) ∧ f.length = P.length ∧
      ((∀ p ∈ ([1, 2, 4] : List ℚ), 0 < p) →
        0 < (WelchEstimator.mk 0 1000 10 50 true).r_ant →
        ∀ v ∈ P, v.finite = true) := by
  refine ⟨by simp [recognizedScales], ?_⟩
  exact (execute_welch_scales (WelchEstimator.mk 0 1000 10 50 true) [1, 2, 4]
    "dB").2 (by simp [recognizedScales])

/-- Claim C7: PSD plot generation fails with 404 when no frame has been
received, with 400 when the power array is empty or the span non-positive,
and succeeds producing the plotted image for a non-empty array with a
positive span. -/
theorem psd_plot_png_spec (m : MeasurementResult) :
    psd_plot_png none = .error 404 ∧
    (m.Pxx = [] → psd_plot_png (some m) = .error 400) ∧
    (m.end_freq_hz ≤ m.start_freq_hz → psd_plot_png (some m) = .error 400) ∧
    (m.Pxx ≠ [] → m.start_freq_hz < m.end_freq_hz →
      ∃ img, psd_plot_png (some m) = .ok img) := by
  refine ⟨rfl, ?_, ?_, ?_⟩
  · intro h
    simp [psd_plot_png, h]
  · intro h
    simp [psd_plot_png, h]
  · intro h1 h2
    refine ⟨(linspace m.start_freq_hz m.end_freq_hz m.Pxx.length).zip m.Pxx, ?_⟩
    simp only [psd_plot_png]
    rw [if_neg]
    push_neg
    exact ⟨fun hc => h1 (List.length_eq_zero.mp hc), h2⟩

/-- Witness for C7 at the spec's end-to-end scenario D: a valid 3-bin frame
succeeds, the empty frame and the non-positive span fail with 400, and the
missing frame fails with 404. -/
theorem psd_plot_png_spec_witness :
    psd_plot_png none = .error 404 ∧
    psd_plot_png (some (MeasurementResult.mk [] 0 1000000 0 "m")) = .error 400 ∧
    psd_plot_png (some (MeasurementResult.mk [1, 2, 3] 1000000 0 0 "m")) =
      .error 400 ∧
    ∃ img, psd_plot_png (some (MeasurementResult.mk [1, 2, 3] 0 1000000 0 "m")) =
      .ok img := by
  refine ⟨(psd_plot_png_spec (MeasurementResult.mk [1, 2, 3] 0 1000000 0 "m")).1,
    (psd_plot_png_spec (MeasurementResult.mk [] 0 1000000 0 "m")).2.1 rfl,
    (psd_plot_png_spec (MeasurementResult.mk [1, 2, 3] 1000000 0 0 "m")).2.2.1
      (by norm_num),
    (psd_plot_png_spec (MeasurementResult.mk [1, 2, 3] 0 1000000 0 "m")).2.2.2
      (by simp) (by norm_num)⟩

/-- The byte-to-complex conversion produces one sample per byte pair. -/
theorem bytesToComplex_length :
    ∀ bs : List Int, (bytesToComplex bs).length = bs.length / 2
  | [] => rfl
  | [_] => by norm_num [bytesToComplex]
  | _ :: _ :: rest => by
    simp only [bytesToComplex, List.length_cons, bytesToComplex_length rest]
    omega

/-- The k-th converted sample is the k-th byte pair, taken directly as real
and imaginary parts. -/
theorem bytesToComplex_getD :
    ∀ (bs : List Int) (k : Nat), 2 * k + 1 < bs.length →
      (bytesToComplex bs).getD k (0, 0) =
        ((bs.getD (2 * k) 0 : ℚ), (bs.getD (2 * k + 1) 0 : ℚ))
  | [], k, h => by simp at h
  | [_], k, h => by simp at h
  | i :: q :: rest, 0, _ => by simp [bytesToComplex]
  | i :: q :: rest, k + 1, h => by
    have hrest : 2 * k + 1 < rest.length := by
      simp only [List.length_cons] at h
      omega
    have ih := bytesToComplex_getD rest k hrest
    have e1 : 2 * (k + 1) = 2 * k + 1 + 1 := by ring
    rw [e1]
    simpa [bytesToComplex] using ih

/-- Claim C8 counterexample: the spec says each signed byte is divided by the
full-scale value before pairing, but the repository's own test
(`test_main_reads_and_converts_stdin`) pins the behaviour of
`psd_consumer.main` to `arr[0] == 1+2j` for input bytes (1, 2) — the byte
values are taken as-is, so the full-scale-division conversion disagrees with
the pinned conversion at the test's own input. -/
theorem bytesToComplex_fullscale_counterexample :
    bytesToComplex [1, 2, 3, 4, 5, 6, 7, 8] ≠
      bytesToComplexSpec [1, 2, 3, 4, 5, 6, 7, 8] ∧
    (bytesToComplex [1, 2, 3, 4, 5, 6, 7, 8]).getD 0 (0, 0) = (1, 2) ∧
    (bytesToComplexSpec [1, 2, 3, 4, 5, 6, 7, 8]).getD 0 (0, 0) =
      (1 / 128, 2 / 128) := by
  refine ⟨?_, by norm_num [bytesToComplex], by norm_num [bytesToComplexSpec]⟩
  intro heq
  have h0 := congrArg (fun l => l.getD 0 ((0 : ℚ), (0 : ℚ))) heq
  simp only [bytesToComplex, bytesToComplexSpec, List.getD_cons_zero] at h0
  have h1 : (1 : ℚ) = 1 / 128 := congrArg Prod.fst h0
  norm_num at h1

/-- Claim C8 (amended): consecutive raw bytes are interpreted as interleaved
signed 8-bit (I, Q) pairs and converted to double-precision complex samples
by taking each byte pair directly as real and imaginary parts (no full-scale
division), before the samples are written to the RingBuffer. -/
theorem psd_consumer_byte_conversion (bs : List Int) (k : Nat)
    (hk : 2 * k + 1 < bs.length) :
    (bytesToComplex bs).length = bs.length / 2 ∧
    (bytesToComplex bs).getD k (0, 0) =
      ((bs.getD (2 * k) 0 : ℚ), (bs.getD (2 * k + 1) 0 : ℚ)) ∧
    ∀ rb : RingBuffer, ingestChunk rb bs = rb.write (bytesToComplex bs) :=
  ⟨bytesToComplex_length bs, bytesToComplex_getD bs k hk, fun _ => rfl⟩

/-- Witness for the amended C8 at the test's own input bytes
[1,2,3,4,5,6,7,8]: four complex samples, the second being 3+4j. -/
theorem psd_consumer_byte_conversion_witness :
    2 * 1 + 1 < ([1, 2, 3, 4, 5, 6, 7, 8] : List Int).length ∧
    (bytesToComplex [1, 2, 3, 4, 5, 6, 7, 8]).length = 4 ∧
    (bytesToComplex [1, 2, 3, 4, 5, 6, 7, 8]).getD 1 (0, 0) = (3, 4) := by
  have h := psd_consumer_byte_conversion [1, 2, 3, 4, 5, 6, 7, 8] 1 (by norm_num)
  exact ⟨by norm_num, by simpa using h.1, by simpa using h.2.1⟩

/-- The tee loop forwards a prefix of the chunk stream: exactly the chunks up
to the first iteration at which the polled mode flag is no longer
"realtime" (or up to end-of-stream). -/
theorem teeStreamGo_spec (mode : Nat → String) :
    ∀ (chunks : List Chunk) (i : Nat),
      ∃ k, k ≤ chunks.length ∧ teeStreamGo mode i chunks = chunks.take k ∧
        (∀ j, j < k → mode (i + j) = "realtime") ∧
        (k < chunks.length → mode (i + k) ≠ "realtime")
  | [], i => ⟨0, by simp [teeStreamGo]⟩
  | c :: rest, i => by
    by_cases hm : mode i = "realtime"
    · obtain ⟨k, hk1, hk2, hk3, hk4⟩ := teeStreamGo_spec mode rest (i + 1)
      refine ⟨k + 1, by simpa using hk1, ?_, ?_, ?_⟩
      · simp [teeStreamGo, hm, hk2]
      · intro j hj
        cases j with
        | zero => simpa using hm
        | succ j =>
          have hidx : i + (j + 1) = (i + 1) + j := by omega
          rw [hidx]
          exact hk3 j (by omega)
      · intro hlt
        have hidx : i + (k + 1) = (i + 1) + k := by omega
        rw [hidx]
        exact hk4 (by simpa using hlt)
    · refine ⟨0, by simp, by simp [teeStreamGo, hm], by omega, ?_⟩
      intro _
      simpa using hm

/-- Claim C9: the Orchestrator's tee loop writes every chunk read to every
named pipe in the order read, polling the externally-persisted mode flag once
per chunk, and terminates without writing further chunks as soon as the flag
stops indicating the realtime run mode (or at end-of-stream). -/
theorem tee_stream_prefix (mode : Nat → String) (chunks : List Chunk)
    (pipes : List (List Chunk)) :
    ∃ k, k ≤ chunks.length ∧
      teeStream mode chunks = chunks.take k ∧
      (∀ j, j < k → mode j = "realtime") ∧
      (k < chunks.length → mode k ≠ "realtime") ∧
      teeToPipes mode chunks pipes = pipes.map (fun p => p ++ chunks.take k) := by
  obtain ⟨k, h1, h2, h3, h4⟩ := teeStreamGo_spec mode chunks 0
  refine ⟨k, h1, h2, ?_, ?_, ?_⟩
  · intro j hj
    simpa using h3 j hj
  · intro hlt
    simpa using h4 hlt
  · simp [teeToPipes, teeStream, h2]

/-- Witness for C9: with the flag at "realtime" both chunks pass through and
reach the (single) pipe; with the flag at "stop" from the start nothing is
forwarded, matching the repository's `test_tee_stream_early_exit`. -/
theorem tee_stream_prefix_witness :
    teeStream (fun _ => "realtime") [[1], [2]] = [[1], [2]] ∧
    teeToPipes (fun _ => "realtime") [[1], [2]] [[]] = [[[1], [2]]] ∧
    teeStream (fun _ => "stop") [[1], [2]] = [] := by
  obtain ⟨k, hk1, hk2, hk3, hk4, hk5⟩ :=
    tee_stream_prefix (fun _ => "realtime") [[1], [2]] [[]]
  obtain ⟨k2, hj1, hj2, hj3, hj4, hj5⟩ :=
    tee_stream_prefix (fun _ => "stop") [[1], [2]] [[]]
  simp only [List.length_cons, List.length_nil] at hk1 hj1
  have hkeq : k = 2 := by
    rcases Nat.lt_or_ge k 2 with hlt | hge
    · exact absurd (hk4 (by simpa using hlt)) (by simp)
    · omega
  have hk2eq : k2 = 0 := by
    by_contra hne
    exact absurd (hj3 0 (by omega)) (by decide)
  subst hkeq
  subst hk2eq
  refine ⟨by simpa using hk2, by simpa using hk5, by simpa using hj2⟩

/-- The default store created on first touch has a non-null config. -/
theorem freshStore_config_ne_null : freshStore.config ≠ Json.null := by
  intro h
  exact Json.noConfusion h

/-- `get_device_store` preserves the non-null-config invariant and only ever
hands out stores whose config is non-null for the tracked MAC. -/
theorem get_device_store_ok (m : String) (st : ServerState)
    (p : Store × ServerState) (hp : get_device_store m st = .ok p)
    (mac : String) (hst : ConfigNotNull mac st) :
    ConfigNotNull mac p.2 ∧ (m = mac → p.1.config ≠ Json.null) := by
  unfold get_device_store at hp
  by_cases hv : m ∈ validMacs
  · rw [if_pos hv] at hp
    cases hlk : assocLookup st m with
    | some s =>
      rw [hlk] at hp
      injection hp with hp2
      subst hp2
      refine ⟨hst, ?_⟩
      rintro rfl
      exact hst s hlk
    | none =>
      rw [hlk] at hp
      injection hp with hp2
      subst hp2
      constructor
      · intro s2 hs2
        by_cases hm : m = mac
        · subst hm
          simp only [assocLookup, if_pos rfl] at hs2
          injection hs2 with hs3
          rw [← hs3]
          exact freshStore_config_ne_null
        · simp only [assocLookup, if_neg hm] at hs2
          exact hst s2 hs2
      · intro _
        exact freshStore_config_ne_null
  · rw [if_neg hv] at hp
    exact absurd hp (by simp)

/-- A successful params update that is not the null-storing update for `mac`
preserves the non-null-config invariant. -/
theorem update_frontend_params_preserves (mac : String) (payload : Json)
    (st st2 : ServerState) (h : update_frontend_params payload st = .ok st2)
    (hop : ¬ OpSetsNull mac (Op.frontParams payload))
    (hst : ConfigNotNull mac st) : ConfigNotNull mac st2 := by
  unfold update_frontend_params at h
  cases hlk : payload.lookup "mac" with
  | none =>
    rw [hlk] at h
    exact absurd h (by simp)
  | some j =>
    rw [hlk] at h
    cases j with
    | null => exact absurd h (by simp)
    | bool b => exact absurd h (by simp)
    | num q => exact absurd h (by simp)
    | arr xs => exact absurd h (by simp)
    | obj kvs => exact absurd h (by simp)
    | str m =>
      have h2 : (get_device_store m st).map (fun p =>
          (m, { p.1 with config := (payload.lookup "params").getD Json.null })
            :: p.2) = Except.ok st2 := h
      cases hp : get_device_store m st with
      | error e =>
        rw [hp] at h2
        exact absurd h2 (by simp [Except.map])
      | ok p =>
        rw [hp] at h2
        simp only [Except.map, Except.ok.injEq] at h2
        rw [← h2]
        intro s hs
        by_cases hm : m = mac
        · subst hm
          simp only [assocLookup, if_pos rfl] at hs
          injection hs with hs2
          rw [← hs2]
          intro hn
          exact hop ⟨payload, rfl, hlk, hn⟩
        · simp only [assocLookup, if_neg hm] at hs
          exact (get_device_store_ok m st p hp mac hst).1 s hs

/-- One backend API operation preserves the non-null-config invariant for
`mac`, provided it is not the null-storing params update for `mac`. -/
theorem applyOp_preserves (mac : String) (op : Op) (st : ServerState)
    (hop : ¬ OpSetsNull mac op) (hst : ConfigNotNull mac st) :
    ConfigNotNull mac (applyOp st op) := by
  cases op with
  | frontMetrics m =>
    simp only [applyOp]
    cases hp : get_device_store m st with
    | error e => exact hst
    | ok p => exact (get_device_store_ok m st p hp mac hst).1
  | frontData m =>
    simp only [applyOp]
    cases hp : get_device_store m st with
    | error e => exact hst
    | ok p => exact (get_device_store_ok m st p hp mac hst).1
  | sensorJob m =>
    simp only [applyOp]
    cases hp : get_device_store m st with
    | error e => exact hst
    | ok p => exact (get_device_store_ok m st p hp mac hst).1
  | sensorMetrics m body =>
    simp only [applyOp, post_sensor_metrics]
    cases hp : get_device_store m st with
    | error e => exact hst
    | ok p =>
      have h := get_device_store_ok m st p hp mac hst
      intro s hs
      by_cases hm : m = mac
      · subst hm
        simp only [assocLookup, if_pos rfl] at hs
        injection hs with hs2
        rw [← hs2]
        exact h.2 rfl
      · simp only [assocLookup, if_neg hm] at hs
        exact h.1 s hs
  | sensorData m body =>
    simp only [applyOp, post_sensor_data]
    by_cases hv : m ∈ validMacs
    · rw [if_pos hv]
      cases hp : get_device_store m st with
      | error e => exact hst
      | ok p =>
        have h := get_device_store_ok m st p hp mac hst
        intro s hs
        by_cases hm : m = mac
        · subst hm
          simp only [assocLookup, if_pos rfl] at hs
          injection hs with hs2
          rw [← hs2]
          exact h.2 rfl
        · simp only [assocLookup, if_neg hm] at hs
          exact h.1 s hs
    · rw [if_neg hv]
      exact hst
  | frontParams payload =>
    simp only [applyOp]
    cases h : update_frontend_params payload st with
    | error e => exact hst
    | ok st2 =>
      exact update_frontend_params_preserves mac payload st st2 h hop hst

/-- Running a trace free of null-storing params updates for `mac` preserves
the non-null-config invariant. -/
theorem foldl_applyOp_preserves (mac : String) :
    ∀ (ops : List Op) (st : ServerState), ConfigNotNull mac st →
      (∀ op ∈ ops, ¬ OpSetsNull mac op) →
      ConfigNotNull mac (ops.foldl applyOp st)
  | [], st, hst, _ => by simpa using hst
  | op :: ops, st, hst, hops => by
    have h1 := applyOp_preserves mac op st (hops op (by simp)) hst
    have h2 := foldl_applyOp_preserves mac ops (applyOp st op) h1
      (fun o ho => hops o (by simp [ho]))
    simpa using h2

/-- The empty backend state satisfies the non-null-config invariant. -/
theorem configNotNull_nil (mac : String) : ConfigNotNull mac [] := by
  intro s hs
  simp [assocLookup] at hs

/-- Claim C10: for every whitelisted MAC never yet configured, GET
/api/v1/{mac}/realtime returns the freshly created full default
configuration (center_freq_hz 9800000, sample_rate_hz 20000000, span
20000000, with a demodulation sub-config), not null; and starting from the
empty state, a null config can be observed only after a frontend POST
/api/v1/front/params stored params = null for that MAC. -/
theorem backend_realtime_default_config (mac : String) (st : ServerState)
    (ops : List Op) (hmac : mac ∈ validMacs) :
    (assocLookup st mac = none →
      get_sensor_job mac st =
        .ok (get_default_config, (mac, freshStore) :: st) ∧
      get_default_config.lookup "center_freq_hz" = some (.num 9800000) ∧
      get_default_config.lookup "sample_rate_hz" = some (.num 20000000) ∧
      get_default_config.lookup "span" = some (.num 20000000) ∧
      (∃ dfields, get_default_config.lookup "demodulation" = some (.obj dfields)) ∧
      get_default_config ≠ .null) ∧
    ((∀ op ∈ ops, ¬ OpSetsNull mac op) →
      ∀ cfg st2, get_sensor_job mac (runOps ops) = .ok (cfg, st2) →
        cfg ≠ .null) := by
  constructor
  · intro hnone
    refine ⟨?_, by rfl, by rfl, by rfl, ⟨_, by rfl⟩, by intro h; exact Json.noConfusion h⟩
    simp only [get_sensor_job, get_device_store, if_pos hmac, hnone]
    rfl
  · intro hops cfg st2 hok
    have hnn : ConfigNotNull mac (runOps ops) := by
      unfold runOps
      exact foldl_applyOp_preserves mac ops [] (configNotNull_nil mac) hops
    simp only [get_sensor_job] at hok
    cases hp : get_device_store mac (runOps ops) with
    | error e =>
      rw [hp] at hok
      exact absurd hok (by simp [Except.map])
    | ok p =>
      rw [hp] at hok
      have h2 := (get_device_store_ok mac (runOps ops) p hp mac hnn).2 rfl
      simp only [Except.map, Except.ok.injEq, Prod.mk.injEq] at hok
      rw [← hok.1]
      exact h2

/-- Witness for C10: the first whitelisted MAC, fresh state — the sensor
polling endpoint returns the full default configuration. -/
theorem backend_realtime_default_config_witness :
    "d0:65:78:9c:dd:d0" ∈ validMacs ∧
    get_sensor_job "d0:65:78:9c:dd:d0" [] =
      .ok (get_default_config, [("d0:65:78:9c:dd:d0", freshStore)]) ∧
    get_default_config.lookup "center_freq_hz" = some (.num 9800000) ∧
    get_default_config.lookup "span" = some (.num 20000000) := by
  have h := backend_realtime_default_config "d0:65:78:9c:dd:d0" [] []
    (by simp [validMacs])
  have h1 := h.1 rfl
  exact ⟨by simp [validMacs], h1.1, h1.2.1, h1.2.2.2.1⟩
